import Mathlib

/-!
Verification of the p2p-file-sharing directory server and peer server
against their natural-language specification.

The Python dictionaries of `server.py` (`peers`, `peer_index`,
`username_index`, and each peer's `files` map) are modelled as
insertion-ordered association lists with Python-dict semantics:
assignment replaces the value of an existing key in place, otherwise
appends; deletion removes the entry.  Timestamps (`datetime.now()`,
`time.time()`) are modelled as a `Nat` parameter `now` passed to every
operation.
-/

set_option linter.unusedVariables false

namespace P2P

/-- Python dict lookup `d.get(k)`: value of the first entry with the key. -/
def alookup {α : Type} : List (String × α) → String → Option α
  | [], _ => none
  | (k', v) :: rest, k => if k' = k then some v else alookup rest k

/-- Python dict assignment `d[k] = v`: replace in place if the key is
present, otherwise append the entry at the end. -/
def ainsert {α : Type} : List (String × α) → String → α → List (String × α)
  | [], k, v => [(k, v)]
  | (k', v') :: rest, k, v =>
    if k' = k then (k, v) :: rest else (k', v') :: ainsert rest k v

/-- Python dict deletion `del d[k]` guarded by `if k in d`: remove the
entry with the key when present, otherwise leave the dict unchanged. -/
def aerase {α : Type} : List (String × α) → String → List (String × α)
  | [], _ => []
  | (k', v') :: rest, k =>
    if k' = k then rest else (k', v') :: aerase rest k

@[simp] theorem alookup_nil {α : Type} (k : String) :
    alookup ([] : List (String × α)) k = none := rfl

@[simp] theorem alookup_cons {α : Type} (k' k : String) (v : α) (rest : List (String × α)) :
    alookup ((k', v) :: rest) k = if k' = k then some v else alookup rest k := rfl

theorem alookup_ainsert_self {α : Type} (m : List (String × α)) (k : String) (v : α) :
    alookup (ainsert m k v) k = some v := by
  induction m with
  | nil => simp [ainsert, alookup]
  | cons hd tl ih =>
    obtain ⟨k', v'⟩ := hd
    by_cases h : k' = k <;> simp [ainsert, h, alookup, ih]

theorem alookup_ainsert_ne {α : Type} (m : List (String × α)) (k k' : String) (v : α)
    (h : k' ≠ k) : alookup (ainsert m k v) k' = alookup m k' := by
  induction m with
  | nil => simp [ainsert, alookup, Ne.symm h]
  | cons hd tl ih =>
    obtain ⟨k0, v0⟩ := hd
    rcases eq_or_ne k0 k with rfl | h0
    · simp [ainsert, alookup, Ne.symm h]
    · by_cases h1 : k0 = k' <;> simp [ainsert, alookup, h0, h1, ih, h]

theorem mem_ainsert {α : Type} {m : List (String × α)} {k : String} {v : α}
    {x : String × α} (hx : x ∈ ainsert m k v) : x = (k, v) ∨ x ∈ m := by
  induction m with
  | nil => simpa [ainsert] using hx
  | cons hd tl ih =>
    obtain ⟨k0, v0⟩ := hd
    rcases eq_or_ne k0 k with rfl | h0
    · simp only [ainsert, if_pos] at hx
      rcases List.mem_cons.mp hx with h | h
      · exact Or.inl h
      · exact Or.inr (List.mem_cons_of_mem _ h)
    · simp only [ainsert, if_neg h0] at hx
      rcases List.mem_cons.mp hx with h | h
      · exact Or.inr (by simp [h])
      · rcases ih h with h' | h'
        · exact Or.inl h'
        · exact Or.inr (List.mem_cons_of_mem _ h')

theorem alookup_mem {α : Type} {m : List (String × α)} {k : String} {v : α}
    (h : alookup m k = some v) : (k, v) ∈ m := by
  induction m with
  | nil => simp [alookup] at h
  | cons hd tl ih =>
    obtain ⟨k0, v0⟩ := hd
    rcases eq_or_ne k0 k with rfl | h0
    · simp only [alookup_cons, if_pos, Option.some.injEq] at h
      subst h
      exact List.mem_cons_self _ _
    · simp only [alookup_cons, if_neg h0] at h
      exact List.mem_cons_of_mem _ (ih h)

theorem mem_keys_ainsert {α : Type} {m : List (String × α)} {k a : String} {v : α}
    (h : a ∈ (ainsert m k v).map Prod.fst) : a ∈ m.map Prod.fst ∨ a = k := by
  induction m with
  | nil =>
    right
    simpa [ainsert] using h
  | cons hd tl ih =>
    obtain ⟨k0, v0⟩ := hd
    rcases eq_or_ne k0 k with rfl | h0
    · simp only [ainsert, if_pos, List.map_cons, List.mem_cons] at h
      rcases h with h | h
      · exact Or.inr h
      · exact Or.inl (by simp [h])
    · simp only [ainsert, if_neg h0, List.map_cons, List.mem_cons] at h
      rcases h with h | h
      · exact Or.inl (by simp [h])
      · rcases ih h with h' | h'
        · exact Or.inl (by simp; right; exact (by simpa using h'))
        · exact Or.inr h'

theorem nodup_keys_ainsert {α : Type} {m : List (String × α)} (k : String) (v : α)
    (h : (m.map Prod.fst).Nodup) : ((ainsert m k v).map Prod.fst).Nodup := by
  induction m with
  | nil => simp [ainsert]
  | cons hd tl ih =>
    obtain ⟨k0, v0⟩ := hd
    simp only [List.map_cons, List.nodup_cons] at h
    rcases eq_or_ne k0 k with rfl | h0
    · simp only [ainsert, if_pos, List.map_cons, List.nodup_cons]
      exact h
    · simp only [ainsert, if_neg h0, List.map_cons, List.nodup_cons]
      refine ⟨fun hmem => ?_, ih h.2⟩
      rcases mem_keys_ainsert hmem with h' | h'
      · exact h.1 h'
      · exact h0 h'

theorem mem_aerase {α : Type} {m : List (String × α)} {k : String}
    {x : String × α} (hx : x ∈ aerase m k) : x ∈ m := by
  induction m with
  | nil => simp [aerase] at hx
  | cons hd tl ih =>
    obtain ⟨k0, v0⟩ := hd
    rcases eq_or_ne k0 k with rfl | h0
    · simp only [aerase, if_pos] at hx
      exact List.mem_cons_of_mem _ hx
    · simp only [aerase, if_neg h0] at hx
      rcases List.mem_cons.mp hx with h | h
      · simp [h]
      · exact List.mem_cons_of_mem _ (ih h)

theorem aerase_sublist {α : Type} (m : List (String × α)) (k : String) :
    (aerase m k).Sublist m := by
  induction m with
  | nil => simp [aerase]
  | cons hd tl ih =>
    obtain ⟨k0, v0⟩ := hd
    by_cases h0 : k0 = k
    · simp only [aerase, if_pos h0]
      exact List.sublist_cons_self _ _
    · simp only [aerase, if_neg h0]
      exact List.Sublist.cons₂ _ ih

theorem nodup_keys_aerase {α : Type} {m : List (String × α)} (k : String)
    (h : (m.map Prod.fst).Nodup) : ((aerase m k).map Prod.fst).Nodup :=
  ((aerase_sublist m k).map Prod.fst).nodup h

theorem alookup_aerase_ne {α : Type} (m : List (String × α)) (k k' : String)
    (h : k' ≠ k) : alookup (aerase m k) k' = alookup m k' := by
  induction m with
  | nil => simp [aerase]
  | cons hd tl ih =>
    obtain ⟨k0, v0⟩ := hd
    rcases eq_or_ne k0 k with rfl | h0
    · simp [aerase, alookup, Ne.symm h]
    · by_cases h1 : k0 = k' <;> simp [aerase, alookup, h0, h1, ih, h]

theorem not_mem_aerase_self {α : Type} {m : List (String × α)} {k : String} {v : α}
    (hnd : (m.map Prod.fst).Nodup) : (k, v) ∉ aerase m k := by
  induction m with
  | nil => simp [aerase]
  | cons hd tl ih =>
    obtain ⟨k0, v0⟩ := hd
    simp only [List.map_cons, List.nodup_cons] at hnd
    rcases eq_or_ne k0 k with rfl | h0
    · simp only [aerase, if_pos]
      intro hmem
      exact hnd.1 (by simpa using List.mem_map_of_mem Prod.fst hmem)
    · simp only [aerase, if_neg h0, List.mem_cons]
      rintro (h | h)
      · exact h0 ((congrArg Prod.fst h).symm)
      · exact ih hnd.2 h

theorem ainsert_of_alookup_none {α : Type} {m : List (String × α)} {k : String} (v : α)
    (h : alookup m k = none) : ainsert m k v = m ++ [(k, v)] := by
  induction m with
  | nil => simp [ainsert]
  | cons hd tl ih =>
    obtain ⟨k0, v0⟩ := hd
    by_cases h0 : k0 = k
    · simp [alookup, h0] at h
    · simp only [alookup_cons, if_neg h0] at h
      simp [ainsert, if_neg h0, ih h]

theorem length_ainsert_of_alookup_some {α : Type} {m : List (String × α)} {k : String}
    {w : α} (v : α) (h : alookup m k = some w) :
    (ainsert m k v).length = m.length := by
  induction m with
  | nil => simp [alookup] at h
  | cons hd tl ih =>
    obtain ⟨k0, v0⟩ := hd
    by_cases h0 : k0 = k
    · simp [ainsert, h0]
    · simp only [alookup_cons, if_neg h0] at h
      simp [ainsert, if_neg h0, ih h]

theorem length_ainsert_of_alookup_none {α : Type} {m : List (String × α)} {k : String}
    (v : α) (h : alookup m k = none) :
    (ainsert m k v).length = m.length + 1 := by
  rw [ainsert_of_alookup_none v h]
  simp

theorem alookup_append_right_of_none {α : Type} {m : List (String × α)}
    (m' : List (String × α)) {k : String} (h : alookup m k = none) :
    alookup (m ++ m') k = alookup m' k := by
  induction m with
  | nil => simp
  | cons hd tl ih =>
    obtain ⟨k0, v0⟩ := hd
    by_cases h0 : k0 = k
    · simp [alookup, h0] at h
    · simp only [alookup_cons, if_neg h0] at h
      simp [alookup, if_neg h0, ih h]

/-- Python substring test `needle in hay` on lists of characters. -/
def listContains (needle : List Char) : List Char → Bool
  | [] => needle.isEmpty
  | c :: rest => needle.isPrefixOf (c :: rest) || listContains needle rest

/-- Python substring test `needle in hay` on strings. -/
def pyContains (needle hay : String) : Bool :=
  listContains needle.toList hay.toList

/-- Python `str.lower`, modelled characterwise; `Char.toLower` covers
the basic latin range, which is all the repository's data uses. -/
def strLower (s : String) : String :=
  String.mk (s.data.map Char.toLower)

/-- File metadata stored per file in a peer's `files` dict, translated
from the dict literal built in `P2PDirectoryServer.Index`. -/
structure FileMeta where
  filename : String
  file_path : String
  file_size : Nat
  file_hash : String
  last_modified : Nat
  mime_type : String
  tags : List String
deriving DecidableEq

/-- The dataclass `PeerData` of `server.py`. -/
structure PeerData where
  peer_id : String
  username : String
  url : String
  port : Nat
  token : String
  is_online : Bool
  last_seen : Nat
  files : List (String × FileMeta)
  login_attempts : Nat
  created_at : Nat
deriving DecidableEq

/-- The in-memory database of `P2PDirectoryServer`: `peers` maps token
to `PeerData`, `peer_index` maps peer_id to token, `username_index`
maps username to token; `token_counter` feeds `_generate_token`. -/
structure ServerState where
  peers : List (String × PeerData)
  peer_index : List (String × String)
  username_index : List (String × String)
  token_counter : Nat
deriving DecidableEq

/-- The security section of the configuration (`config.py`,
`get_security_config`). -/
structure SecurityConfig where
  enable_auth : Bool
  max_login_attempts : Nat
deriving DecidableEq

/-- Default `max_login_attempts` from `get_security_config`. -/
def defaultSecurityConfig : SecurityConfig :=
  { enable_auth := true, max_login_attempts := 3 }

/-- The empty registry built in `P2PDirectoryServer.__init__`. -/
def initialState : ServerState :=
  { peers := [], peer_index := [], username_index := [], token_counter := 0 }

/-- The `_generate_token` helper increments `token_counter` and digests a
time/counter/uuid composite with MD5.  The digest is abstracted to an
injective function of the counter; every claim uses tokens only up to
equality, so only freshness and stability matter. -/
def genToken (n : Nat) : String :=
  "token-" ++ toString n

structure PeerInfo where
  peer_id : String
  username : String
  url : String
  port : Nat
  is_online : Bool
  last_seen : Nat
  file_count : Nat
deriving DecidableEq

structure FileLocation where
  file_info : FileMeta
  peer_info : PeerInfo
  download_url : String
  is_available : Bool
deriving DecidableEq

structure LoginRequest where
  username : String
  password : String
  peer_id : String
  peer_url : String
  port : Nat
deriving DecidableEq

structure LoginResponse where
  success : Bool
  token : String
  message : String
  connected_peers : List PeerInfo
deriving DecidableEq

structure LogoutResponse where
  success : Bool
  message : String
deriving DecidableEq

structure IndexResponse where
  success : Bool
  message : String
  files_indexed : Nat
deriving DecidableEq

structure SearchRequest where
  token : String
  peer_id : String
  filename : String
  file_pattern : String
deriving DecidableEq

structure SearchResponse where
  success : Bool
  message : String
  results : List FileLocation
deriving DecidableEq

structure HeartbeatResponse where
  success : Bool
  server_timestamp : Nat
  active_peers : Nat
deriving DecidableEq

/-- Projection of a `PeerData` to the `PeerInfo` message, as built at
each of the three sites in `server.py`. -/
def mkPeerInfo (p : PeerData) : PeerInfo :=
  { peer_id := p.peer_id, username := p.username, url := p.url, port := p.port,
    is_online := p.is_online, last_seen := p.last_seen, file_count := p.files.length }

/-- The `connected_peers` snapshot built inside `Login`: all stored peers
that are online and whose token differs from the given one. -/
def connectedPeersExcept (peers : List (String × PeerData)) (exclude : String) : List PeerInfo :=
  (peers.filter (fun p => p.2.is_online && !(p.2.token == exclude))).map
    (fun p => mkPeerInfo p.2)

/-- Model of `_validate_token`: look the token up; if the peer exists and is
online, refresh its `last_seen` (the record is mutated in place) and
return it, else return `none`.  The returned state carries the
`last_seen` refresh. -/
def validate_token (now : Nat) (st : ServerState) (token : String) :
    Option PeerData × ServerState :=
  match alookup st.peers token with
  | some peer =>
    if peer.is_online then
      let peer' := { peer with last_seen := now }
      (some peer', { st with peers := ainsert st.peers token peer' })
    else (none, st)
  | none => (none, st)

/-- The new-peer tail of `Login`: mint a token, build the `PeerData`,
and register it in the three dicts. -/
def createNewPeer (now : Nat) (st : ServerState) (req : LoginRequest) :
    ServerState × LoginResponse :=
  let token := genToken (st.token_counter + 1)
  let peer_data : PeerData :=
    { peer_id := req.peer_id, username := req.username, url := req.peer_url,
      port := req.port, token := token, is_online := true, last_seen := now,
      files := [], login_attempts := 0, created_at := now }
  let st' : ServerState :=
    { st with token_counter := st.token_counter + 1,
              peers := ainsert st.peers token peer_data,
              peer_index := ainsert st.peer_index req.peer_id token,
              username_index := ainsert st.username_index req.username token }
  (st', { success := true, token := token, message := "Login exitoso",
          connected_peers := connectedPeersExcept st'.peers token })

/-- Model of `P2PDirectoryServer.Login`.  When the username is indexed and its
token is stored, a matching username+url re-logs the existing record in;
otherwise `login_attempts` is bumped and either the rate limit fires or
a brand-new record is created.  A username-index entry whose token is
not in `peers` raises `KeyError` in the source, answered as an internal
server error. -/
def Login (cfg : SecurityConfig) (now : Nat) (st : ServerState) (req : LoginRequest) :
    ServerState × LoginResponse :=
  match alookup st.username_index req.username with
  | some existing_token =>
    match alookup st.peers existing_token with
    | some peer =>
      if peer.username == req.username && peer.url == req.peer_url then
        let peer' := { peer with is_online := true, last_seen := now, port := req.port }
        let st' : ServerState := { st with peers := ainsert st.peers existing_token peer' }
        (st', { success := true, token := existing_token, message := "Reconexión exitosa",
                connected_peers := connectedPeersExcept st'.peers existing_token })
      else
        let peer2 := { peer with login_attempts := peer.login_attempts + 1 }
        let st1 : ServerState := { st with peers := ainsert st.peers existing_token peer2 }
        if peer2.login_attempts > cfg.max_login_attempts then
          (st1, { success := false, token := "",
                  message := "Demasiados intentos de login fallidos", connected_peers := [] })
        else
          createNewPeer now st1 req
    | none =>
      (st, { success := false, token := "",
             message := "Error interno del servidor", connected_peers := [] })
  | none => createNewPeer now st req

/-- Model of `P2PDirectoryServer.Logout`: validate the token, then mark the
record offline; the record itself stays registered. -/
def Logout (now : Nat) (st : ServerState) (token : String) :
    ServerState × LogoutResponse :=
  match validate_token now st token with
  | (none, st') =>
    (st', { success := false, message := "Token inválido o peer no encontrado" })
  | (some peer, st') =>
    let peer2 := { peer with is_online := false }
    ({ st' with peers := ainsert st'.peers token peer2 },
     { success := true, message := "Logout exitoso" })

/-- Model of `P2PDirectoryServer.Index`: validate the token, clear the peer's
`files` dict, then insert each supplied entry keyed by filename while
counting every list element. -/
def Index (now : Nat) (st : ServerState) (token : String) (files : List FileMeta) :
    ServerState × IndexResponse :=
  match validate_token now st token with
  | (none, st') =>
    (st', { success := false, message := "Token inválido o peer no encontrado",
            files_indexed := 0 })
  | (some peer, st') =>
    let acc := files.foldl
      (fun (a : List (String × FileMeta) × Nat) f => (ainsert a.1 f.filename f, a.2 + 1))
      ([], 0)
    let peer2 := { peer with files := acc.1 }
    ({ st' with peers := ainsert st'.peers token peer2 },
     { success := true, message := "Archivos indexados correctamente",
       files_indexed := acc.2 })

/-- The match test of `Search`: an empty term never matches; a non-empty
term matches when it is a substring of the lowercased filename. -/
def searchMatch (term pat filename : String) : Bool :=
  (!(term == "") && pyContains term (strLower filename))
    || (!(pat == "") && pyContains pat (strLower filename))

/-- One `FileLocation` result of `Search`, built from the stored file
dict and the owning peer; the download URL uses the dict key. -/
def mkFileLocation (p : PeerData) (filename : String) (fd : FileMeta) : FileLocation :=
  { file_info := fd,
    peer_info := mkPeerInfo p,
    download_url := "http://" ++ p.url ++ ":" ++ toString p.port ++ "/download/" ++ filename,
    is_available := true }

/-- Model of `P2PDirectoryServer.Search`: validate the token, lowercase the two
query fields, then scan every stored peer that is online and is not the
caller, emitting a result for each file whose name matches. -/
def Search (now : Nat) (st : ServerState) (req : SearchRequest) :
    ServerState × SearchResponse :=
  match validate_token now st req.token with
  | (none, st') =>
    (st', { success := false, message := "Token inválido o peer no encontrado",
            results := [] })
  | (some _, st') =>
    let term := strLower req.filename
    let pat := if !(req.file_pattern == "") then strLower req.file_pattern else ""
    let results := st'.peers.flatMap (fun tp =>
      if !tp.2.is_online || tp.1 == req.token then []
      else
        (tp.2.files.filter (fun ffd => searchMatch term pat ffd.1)).map
          (fun ffd => mkFileLocation tp.2 ffd.1 ffd.2))
    (st', { success := true,
            message := "Se encontraron " ++ toString results.length ++ " resultados",
            results := results })

/-- Model of `P2PDirectoryServer.GetPeerInfo`: validate the token and snapshot
every online peer, the caller included. -/
def GetPeerInfo (now : Nat) (st : ServerState) (token : String) :
    ServerState × (Bool × List PeerInfo) :=
  match validate_token now st token with
  | (none, st') => (st', (false, []))
  | (some _, st') =>
    (st', (true, (st'.peers.filter (fun p => p.2.is_online)).map (fun p => mkPeerInfo p.2)))

/-- Model of `P2PDirectoryServer.Heartbeat`: validate the token and report the
count of online peers together with the server clock. -/
def Heartbeat (now : Nat) (st : ServerState) (token : String) :
    ServerState × HeartbeatResponse :=
  match validate_token now st token with
  | (none, st') => (st', { success := false, server_timestamp := now, active_peers := 0 })
  | (some _, st') =>
    (st', { success := true, server_timestamp := now,
            active_peers := (st'.peers.filter (fun p => p.2.is_online)).length })

/-- One removal step of `_cleanup_inactive_peers`: delete the peer's
index entries when present, then the record itself. -/
def removeToken (s : ServerState) (t : String) : ServerState :=
  match alookup s.peers t with
  | some peer =>
    { s with peer_index := aerase s.peer_index peer.peer_id,
             username_index := aerase s.username_index peer.username,
             peers := aerase s.peers t }
  | none => s

/-- Model of `_cleanup_inactive_peers`: collect the tokens whose `last_seen` lies
before `now - peer_timeout`, then remove them one by one. -/
def cleanup (peer_timeout now : Nat) (st : ServerState) : ServerState :=
  let inactive := (st.peers.filter (fun tp => tp.2.last_seen < now - peer_timeout)).map Prod.fst
  inactive.foldl removeToken st

/-! ### The secondary-index invariant (claim C1) -/

/-- The registry stores each token at most once (Python dicts cannot
hold a key twice). -/
def TokensNodup (st : ServerState) : Prop :=
  (st.peers.map Prod.fst).Nodup

/-- The invariant of the spec: for every stored record, `peer_index`
maps its `peer_id` to its token and `username_index` maps its
`username` to its token. -/
def IndexesAgree (st : ServerState) : Prop :=
  ∀ p ∈ st.peers,
    alookup st.peer_index p.2.peer_id = some p.1 ∧
    alookup st.username_index p.2.username = some p.1

/-- Well-formedness: unique token keys together with agreeing indexes. -/
def RegistryInv (st : ServerState) : Prop :=
  TokensNodup st ∧ IndexesAgree st

instance (st : ServerState) : Decidable (TokensNodup st) := by
  unfold TokensNodup
  infer_instance

instance (st : ServerState) : Decidable (IndexesAgree st) := by
  unfold IndexesAgree
  exact List.decidableBAll _ _

instance (st : ServerState) : Decidable (RegistryInv st) := by
  unfold RegistryInv
  infer_instance

/-- Replacing the record stored at a token with one that keeps the same
`peer_id` and `username` preserves the invariant. -/
theorem registryInv_update {st : ServerState} {tok : String} {pd pd' : PeerData}
    (hinv : RegistryInv st) (hlk : alookup st.peers tok = some pd)
    (hid : pd'.peer_id = pd.peer_id) (hun : pd'.username = pd.username) :
    RegistryInv { st with peers := ainsert st.peers tok pd' } := by
  obtain ⟨hnd, hag⟩ := hinv
  refine ⟨nodup_keys_ainsert _ _ hnd, ?_⟩
  intro q hq
  rcases mem_ainsert hq with rfl | hq'
  · have h0 := hag (tok, pd) (alookup_mem hlk)
    simpa [hid, hun] using h0
  · exact hag q hq'

/-- Validation preserves the invariant (it only refreshes
`last_seen`). -/
theorem registryInv_validate (now : Nat) (st : ServerState) (token : String)
    (hinv : RegistryInv st) : RegistryInv (validate_token now st token).2 := by
  unfold validate_token
  cases hlk : alookup st.peers token with
  | none => simpa using hinv
  | some peer =>
    by_cases hon : peer.is_online
    · simp only [hon, if_true]
      exact registryInv_update hinv hlk rfl rfl
    · simpa [hon] using hinv

/-- Inserting a brand-new record whose `username`, `peer_id` and token
are all unregistered preserves the invariant. -/
theorem registryInv_insert_fresh {st : ServerState} {tok pid un : String} {pd : PeerData}
    (n : Nat) (hinv : RegistryInv st)
    (hpid : pd.peer_id = pid) (hun : pd.username = un)
    (hfpid : alookup st.peer_index pid = none)
    (hfun : alookup st.username_index un = none)
    (hftok : alookup st.peers tok = none) :
    RegistryInv { st with token_counter := n,
                          peers := ainsert st.peers tok pd,
                          peer_index := ainsert st.peer_index pid tok,
                          username_index := ainsert st.username_index un tok } := by
  obtain ⟨hnd, hag⟩ := hinv
  refine ⟨nodup_keys_ainsert _ _ hnd, ?_⟩
  intro q hq
  rcases mem_ainsert hq with rfl | hq'
  · simp only [hpid, hun]
    exact ⟨alookup_ainsert_self _ _ _, alookup_ainsert_self _ _ _⟩
  · have h0 := hag q hq'
    have hqid : q.2.peer_id ≠ pid := by
      intro he
      rw [he, hfpid] at h0
      exact Option.noConfusion h0.1
    have hqun : q.2.username ≠ un := by
      intro he
      rw [he, hfun] at h0
      exact Option.noConfusion h0.2
    rw [alookup_ainsert_ne _ _ _ _ hqid, alookup_ainsert_ne _ _ _ _ hqun]
    exact h0

/-- A single sweep removal step preserves the invariant. -/
theorem registryInv_removeToken (st : ServerState) (t : String)
    (hinv : RegistryInv st) : RegistryInv (removeToken st t) := by
  obtain ⟨hnd, hag⟩ := hinv
  unfold removeToken
  cases hlk : alookup st.peers t with
  | none => exact ⟨hnd, hag⟩
  | some pd =>
    have hmem : (t, pd) ∈ st.peers := alookup_mem hlk
    refine ⟨nodup_keys_aerase _ hnd, ?_⟩
    intro q hq
    have hq' : q ∈ st.peers := mem_aerase hq
    have h0 := hag q hq'
    have hqid : q.2.peer_id ≠ pd.peer_id := by
      intro he
      have ht := (hag (t, pd) hmem).1
      rw [he, ht] at h0
      have : q.1 = t := by
        have := h0.1
        simpa using this.symm
      obtain ⟨q1, q2⟩ := q
      simp only at this
      subst this
      exact not_mem_aerase_self hnd hq
    have hqun : q.2.username ≠ pd.username := by
      intro he
      have ht := (hag (t, pd) hmem).2
      rw [he, ht] at h0
      have : q.1 = t := by
        have := h0.2
        simpa using this.symm
      obtain ⟨q1, q2⟩ := q
      simp only at this
      subst this
      exact not_mem_aerase_self hnd hq
    rw [alookup_aerase_ne _ _ _ hqid, alookup_aerase_ne _ _ _ hqun]
    exact h0

/-- The full sweep preserves the invariant. -/
theorem registryInv_cleanup (peer_timeout now : Nat) (st : ServerState)
    (hinv : RegistryInv st) : RegistryInv (cleanup peer_timeout now st) := by
  unfold cleanup
  generalize (st.peers.filter (fun tp => tp.2.last_seen < now - peer_timeout)).map Prod.fst = ts
  induction ts generalizing st with
  | nil => simpa using hinv
  | cons t ts ih =>
    simp only [List.foldl_cons]
    exact ih _ (registryInv_removeToken st t hinv)

/-- Anatomy of a successful `_validate_token` call. -/
theorem validate_token_some {now : Nat} {st : ServerState} {token : String}
    {p : PeerData} {st' : ServerState}
    (h : validate_token now st token = (some p, st')) :
    ∃ q, alookup st.peers token = some q ∧ q.is_online = true ∧
      p = { q with last_seen := now } ∧
      st' = { st with peers := ainsert st.peers token p } := by
  unfold validate_token at h
  split at h
  · rename_i q heq
    split at h
    · rename_i hon
      simp only [Prod.mk.injEq, Option.some.injEq] at h
      obtain ⟨hp, hst⟩ := h
      subst hp
      exact ⟨q, heq, hon, rfl, hst.symm⟩
    · rename_i hon
      simp at h
  · rename_i heq
    simp at h

/-- A failed `_validate_token` call leaves the state unchanged. -/
theorem validate_token_none {now : Nat} {st : ServerState} {token : String}
    {st' : ServerState}
    (h : validate_token now st token = (none, st')) : st' = st := by
  unfold validate_token at h
  split at h
  · rename_i q heq
    split at h
    · rename_i hon
      simp at h
    · rename_i hon
      simp only [Prod.mk.injEq] at h
      exact h.2.symm
  · rename_i heq
    simp only [Prod.mk.injEq] at h
    exact h.2.symm

theorem registryInv_logout (now : Nat) (st : ServerState) (token : String)
    (hinv : RegistryInv st) : RegistryInv (Logout now st token).1 := by
  unfold Logout
  cases hv : validate_token now st token with
  | mk op st' =>
    cases op with
    | none => simpa [validate_token_none hv] using hinv
    | some p =>
      obtain ⟨q, hlk, hon, hp, hst⟩ := validate_token_some hv
      have hinv' : RegistryInv st' := by
        have := registryInv_validate now st token hinv
        rwa [hv] at this
      have hlk' : alookup st'.peers token = some p := by
        rw [hst]
        exact alookup_ainsert_self _ _ _
      simpa using
        @registryInv_update st' token p { p with is_online := false } hinv' hlk' rfl rfl

theorem registryInv_index (now : Nat) (st : ServerState) (token : String)
    (files : List FileMeta) (hinv : RegistryInv st) :
    RegistryInv (Index now st token files).1 := by
  unfold Index
  cases hv : validate_token now st token with
  | mk op st' =>
    cases op with
    | none => simpa [validate_token_none hv] using hinv
    | some p =>
      obtain ⟨q, hlk, hon, hp, hst⟩ := validate_token_some hv
      have hinv' : RegistryInv st' := by
        have := registryInv_validate now st token hinv
        rwa [hv] at this
      have hlk' : alookup st'.peers token = some p := by
        rw [hst]
        exact alookup_ainsert_self _ _ _
      simpa using
        @registryInv_update st' token p
          { p with files :=
              (files.foldl
                (fun (a : List (String × FileMeta) × Nat) f =>
                  (ainsert a.1 f.filename f, a.2 + 1)) ([], 0)).1 }
          hinv' hlk' rfl rfl

theorem registryInv_search (now : Nat) (st : ServerState) (req : SearchRequest)
    (hinv : RegistryInv st) : RegistryInv (Search now st req).1 := by
  unfold Search
  cases hv : validate_token now st req.token with
  | mk op st' =>
    have hinv' : RegistryInv st' := by
      have := registryInv_validate now st req.token hinv
      rwa [hv] at this
    cases op <;> simpa using hinv'

theorem registryInv_getPeerInfo (now : Nat) (st : ServerState) (token : String)
    (hinv : RegistryInv st) : RegistryInv (GetPeerInfo now st token).1 := by
  unfold GetPeerInfo
  cases hv : validate_token now st token with
  | mk op st' =>
    have hinv' : RegistryInv st' := by
      have := registryInv_validate now st token hinv
      rwa [hv] at this
    cases op <;> simpa using hinv'

theorem registryInv_heartbeat (now : Nat) (st : ServerState) (token : String)
    (hinv : RegistryInv st) : RegistryInv (Heartbeat now st token).1 := by
  unfold Heartbeat
  cases hv : validate_token now st token with
  | mk op st' =>
    have hinv' : RegistryInv st' := by
      have := registryInv_validate now st token hinv
      rwa [hv] at this
    cases op <;> simpa using hinv'

/-- A `Login` request that matches an existing record: its username is
indexed, the token is stored, and the record carries the same username
and host. -/
def ReloginRequest (st : ServerState) (req : LoginRequest) : Prop :=
  ∃ t pd, alookup st.username_index req.username = some t ∧
    alookup st.peers t = some pd ∧
    pd.username = req.username ∧ pd.url = req.peer_url

/-- A `Login` request whose username and peer_id are both unregistered
and whose minted token is not yet a key of `peers`. -/
def FreshLoginRequest (st : ServerState) (req : LoginRequest) : Prop :=
  alookup st.username_index req.username = none ∧
  alookup st.peer_index req.peer_id = none ∧
  alookup st.peers (genToken (st.token_counter + 1)) = none

theorem registryInv_login (cfg : SecurityConfig) (now : Nat) (st : ServerState)
    (req : LoginRequest) (hinv : RegistryInv st)
    (hcond : ReloginRequest st req ∨ FreshLoginRequest st req) :
    RegistryInv (Login cfg now st req).1 := by
  rcases hcond with ⟨t, pd, h1, h2, h3, h4⟩ | ⟨hf1, hf2, hf3⟩
  · have hbeq : (pd.username == req.username && pd.url == req.peer_url) = true := by
      simp [h3, h4]
    simp only [Login, h1, h2, hbeq, if_true]
    exact @registryInv_update st t pd
      { pd with is_online := true, last_seen := now, port := req.port } hinv h2 rfl rfl
  · simp only [Login, createNewPeer, hf1]
    exact registryInv_insert_fresh (st.token_counter + 1) hinv rfl rfl hf2 hf1 hf3

/-- Claim C1 (amended): the agreement of the secondary indexes with the
stored records holds in the empty registry and is preserved, together
with uniqueness of the stored tokens, by `Logout`, `Index`, `Search`,
`GetPeerInfo`, `Heartbeat` and the inactivity sweep for all arguments;
`Login` preserves it only when the request re-logs an existing record
in (same username and host) or when both its username and its peer_id
are unregistered and the minted token is fresh.  (As stated, the claim
is false: a `Login` colliding on username or peer_id silently breaks
the invariant — see the counterexample.) -/
theorem C1_indexes_agree_amended :
    RegistryInv initialState ∧
    (∀ now st tok, RegistryInv st → RegistryInv (Logout now st tok).1) ∧
    (∀ now st tok files, RegistryInv st → RegistryInv (Index now st tok files).1) ∧
    (∀ now st req, RegistryInv st → RegistryInv (Search now st req).1) ∧
    (∀ now st tok, RegistryInv st → RegistryInv (GetPeerInfo now st tok).1) ∧
    (∀ now st tok, RegistryInv st → RegistryInv (Heartbeat now st tok).1) ∧
    (∀ pt now st, RegistryInv st → RegistryInv (cleanup pt now st)) ∧
    (∀ cfg now st req, RegistryInv st →
      ReloginRequest st req ∨ FreshLoginRequest st req →
      RegistryInv (Login cfg now st req).1) :=
  ⟨by decide,
   registryInv_logout,
   registryInv_index,
   registryInv_search,
   registryInv_getPeerInfo,
   registryInv_heartbeat,
   registryInv_cleanup,
   registryInv_login⟩

/-- A concrete consistent one-peer registry used by several witnesses. -/
def pdW : PeerData :=
  { peer_id := "p1", username := "alice", url := "h1", port := 1, token := "t1",
    is_online := true, last_seen := 0, files := [], login_attempts := 0, created_at := 0 }

/-- A concrete consistent one-peer registry used by several witnesses. -/
def stW : ServerState :=
  { peers := [("t1", pdW)], peer_index := [("p1", "t1")],
    username_index := [("alice", "t1")], token_counter := 1 }

/-- Witness for C1: the `Logout` conjunct applied to the concrete
one-peer registry. -/
theorem C1_indexes_agree_witness : RegistryInv (Logout 7 stW "t1").1 :=
  C1_indexes_agree_amended.2.1 7 stW "t1" (by decide)

/-- First login request of the C1 counterexample. -/
def reqA : LoginRequest :=
  { username := "alice", password := "pw", peer_id := "p1", peer_url := "h1", port := 1 }

/-- Second login request of the C1 counterexample: a fresh username but
the same peer_id as `reqA`. -/
def reqB : LoginRequest :=
  { username := "bob", password := "pw", peer_id := "p1", peer_url := "h2", port := 2 }

/-- Counterexample for C1 as stated: starting from the empty registry,
two successful `Login` requests that share a peer_id leave a stored
record whose `peer_id` no longer maps to its token, so the invariant is
not preserved by every operation and request sequence. -/
theorem C1_indexes_agree_counterexample :
    IndexesAgree initialState ∧
    (Login defaultSecurityConfig 0 initialState reqA).2.success = true ∧
    (Login defaultSecurityConfig 0
      (Login defaultSecurityConfig 0 initialState reqA).1 reqB).2.success = true ∧
    ¬ IndexesAgree (Login defaultSecurityConfig 0
      (Login defaultSecurityConfig 0 initialState reqA).1 reqB).1 := by
  refine ⟨by decide, by decide, by decide, by decide⟩

/-! ### Re-login and username-conflict behaviour of `Login` (claims C2, C3, C8) -/

/-- What the re-login branch of `Login` does: success with the stored
token, the record switched online with refreshed `port` and
`last_seen` — and, notably, `login_attempts` untouched — while the
indexes, the token counter and the number of records are unchanged. -/
theorem relogin_spec (cfg : SecurityConfig) (now : Nat) (st : ServerState)
    (req : LoginRequest) (t : String) (pd : PeerData)
    (hu : alookup st.username_index req.username = some t)
    (hp : alookup st.peers t = some pd)
    (hname : pd.username = req.username)
    (hurl : pd.url = req.peer_url) :
    (Login cfg now st req).2.success = true ∧
    (Login cfg now st req).2.token = t ∧
    alookup (Login cfg now st req).1.peers t =
      some { pd with is_online := true, last_seen := now, port := req.port } ∧
    (Login cfg now st req).1.peer_index = st.peer_index ∧
    (Login cfg now st req).1.username_index = st.username_index ∧
    (Login cfg now st req).1.token_counter = st.token_counter ∧
    (Login cfg now st req).1.peers.length = st.peers.length := by
  have hbeq : (pd.username == req.username && pd.url == req.peer_url) = true := by
    simp [hname, hurl]
  simp only [Login, hu, hp, hbeq, if_true]
  refine ⟨by trivial, by trivial, alookup_ainsert_self _ _ _, by trivial, by trivial,
    by trivial, ?_⟩
  exact length_ainsert_of_alookup_some _ hp

/-- What `Login` does on a username conflict (same username, different
host): it never answers `CONFLICT`.  It bumps the stored record's
`login_attempts`; past `max_login_attempts` the call fails with the
rate-limit message and no new record, otherwise a brand-new record is
minted under a fresh token, the username-index entry is overwritten to
the new token, and the call succeeds. -/
theorem C2_username_conflict_amended (cfg : SecurityConfig) (now : Nat)
    (st : ServerState) (req : LoginRequest) (t : String) (pd : PeerData)
    (hu : alookup st.username_index req.username = some t)
    (hp : alookup st.peers t = some pd)
    (hname : pd.username = req.username)
    (hurl : pd.url ≠ req.peer_url)
    (hfresh : alookup st.peers (genToken (st.token_counter + 1)) = none) :
    (pd.login_attempts + 1 > cfg.max_login_attempts →
      (Login cfg now st req).2.success = false ∧
      (Login cfg now st req).2.message = "Demasiados intentos de login fallidos" ∧
      (Login cfg now st req).1.peers.length = st.peers.length) ∧
    (pd.login_attempts + 1 ≤ cfg.max_login_attempts →
      (Login cfg now st req).2.success = true ∧
      (Login cfg now st req).1.peers.length = st.peers.length + 1 ∧
      alookup (Login cfg now st req).1.username_index req.username =
        some ((Login cfg now st req).2.token) ∧
      (Login cfg now st req).2.token ≠ t ∧
      alookup (Login cfg now st req).1.peers t =
        some { pd with login_attempts := pd.login_attempts + 1 }) := by
  have hbeq : (pd.username == req.username && pd.url == req.peer_url) = false := by
    simp [hurl]
  have htne : genToken (st.token_counter + 1) ≠ t := by
    intro he
    rw [he, hp] at hfresh
    exact Option.noConfusion hfresh
  simp only [Login, hu, hp, hbeq, Bool.false_eq_true, if_false]
  constructor
  · intro hgt
    rw [if_pos (by simpa using hgt)]
    exact ⟨by trivial, by trivial, length_ainsert_of_alookup_some _ hp⟩
  · intro hle
    rw [if_neg (by simpa using Nat.not_lt.mpr hle)]
    simp only [createNewPeer]
    have hfresh1 :
        alookup (ainsert st.peers t { pd with login_attempts := pd.login_attempts + 1 })
          (genToken (st.token_counter + 1)) = none := by
      rw [alookup_ainsert_ne _ _ _ _ htne]
      exact hfresh
    refine ⟨by trivial, ?_, ?_, ?_, ?_⟩
    · rw [length_ainsert_of_alookup_none _ hfresh1,
        length_ainsert_of_alookup_some _ hp]
    · exact alookup_ainsert_self _ _ _
    · exact htne
    · rw [alookup_ainsert_ne _ _ _ _ (Ne.symm htne)]
      exact alookup_ainsert_self _ _ _

/-- A login request for the already-taken username `alice` from a
different host. -/
def reqC : LoginRequest :=
  { username := "alice", password := "other", peer_id := "p2", peer_url := "h2", port := 3 }

/-- Witness for C2 (amended): on the concrete one-peer registry the
conflicting request succeeds, because the stored record has
`login_attempts = 0` and the default limit is 3. -/
theorem C2_username_conflict_witness :
    (Login defaultSecurityConfig 5 stW reqC).2.success = true :=
  ((C2_username_conflict_amended defaultSecurityConfig 5 stW reqC "t1" pdW
    (by decide) (by decide) (by decide) (by decide) (by decide)).2 (by decide)).1

/-- Counterexample for C2 as stated: a `Login` whose username is owned
by a different host answers success and adds a second record instead of
failing with `CONFLICT` and leaving the registry unchanged. -/
theorem C2_username_conflict_counterexample :
    (Login defaultSecurityConfig 5 stW reqC).2.success = true ∧
    (Login defaultSecurityConfig 5 stW reqC).1.peers.length = stW.peers.length + 1 := by
  refine ⟨by decide, by decide⟩

/-- Claim C3 (amended): a matching re-login succeeds with the existing
token, switches the record online, refreshes `port` and `last_seen` and
creates nothing new — but `login_attempts` is NOT reset: the stored
counter value is carried over unchanged into the updated record. -/
theorem C3_relogin_amended (cfg : SecurityConfig) (now : Nat) (st : ServerState)
    (req : LoginRequest) (t : String) (pd : PeerData)
    (hu : alookup st.username_index req.username = some t)
    (hp : alookup st.peers t = some pd)
    (hname : pd.username = req.username)
    (hurl : pd.url = req.peer_url) :
    (Login cfg now st req).2.success = true ∧
    (Login cfg now st req).2.token = t ∧
    alookup (Login cfg now st req).1.peers t =
      some { pd with is_online := true, last_seen := now, port := req.port } ∧
    (Login cfg now st req).1.token_counter = st.token_counter ∧
    (Login cfg now st req).1.peers.length = st.peers.length :=
  have h := relogin_spec cfg now st req t pd hu hp hname hurl
  ⟨h.1, h.2.1, h.2.2.1, h.2.2.2.2.2.1, h.2.2.2.2.2.2⟩

/-- A stored record for `alice` that has accumulated two failed login
attempts. -/
def pdC3 : PeerData :=
  { pdW with login_attempts := 2 }

/-- Registry holding `pdC3`. -/
def stC3 : ServerState :=
  { stW with peers := [("t1", pdC3)] }

/-- Witness for C3 (amended): re-login on the concrete registry keeps
the stored `login_attempts` value 2. -/
theorem C3_relogin_witness :
    (Login defaultSecurityConfig 9 stC3 reqA).2.success = true ∧
    alookup (Login defaultSecurityConfig 9 stC3 reqA).1.peers "t1" =
      some { pdC3 with is_online := true, last_seen := 9, port := 1 } :=
  have h := C3_relogin_amended defaultSecurityConfig 9 stC3 reqA "t1" pdC3
    (by decide) (by decide) (by decide) (by decide)
  ⟨h.1, h.2.2.1⟩

/-- Counterexample for C3 as stated: after the re-login the record's
`login_attempts` is still 2, not the reset value 0 the claim demands. -/
theorem C3_relogin_counterexample :
    (Login defaultSecurityConfig 9 stC3 reqA).2.success = true ∧
    (Login defaultSecurityConfig 9 stC3 reqA).2.token = "t1" ∧
    (alookup (Login defaultSecurityConfig 9 stC3 reqA).1.peers "t1").map
      (fun pd => pd.login_attempts) = some 2 := by
  refine ⟨by decide, by decide, by decide⟩

/-! ### `Index` (claim C4) -/

/-- The last entry of the list carrying the given filename: the
last-write-wins view of a publish batch. -/
def lastFind (fn : String) : List FileMeta → Option FileMeta
  | [] => none
  | f :: rest =>
    match lastFind fn rest with
    | some g => some g
    | none => if f.filename = fn then some f else none

/-- The counter half of the `Index` fold counts every element of the
supplied list. -/
theorem index_fold_count (files : List FileMeta)
    (m : List (String × FileMeta)) (c : Nat) :
    (files.foldl
      (fun (a : List (String × FileMeta) × Nat) f => (ainsert a.1 f.filename f, a.2 + 1))
      (m, c)).2 = c + files.length := by
  induction files generalizing m c with
  | nil => simp
  | cons f rest ih =>
    simp only [List.foldl_cons, ih, List.length_cons]
    omega

/-- The dictionary half of the `Index` fold realizes last-write-wins:
looking a filename up finds the last list entry carrying it. -/
theorem index_fold_lookup (files : List FileMeta)
    (m : List (String × FileMeta)) (c : Nat) (fn : String) :
    alookup (files.foldl
      (fun (a : List (String × FileMeta) × Nat) f => (ainsert a.1 f.filename f, a.2 + 1))
      (m, c)).1 fn =
      match lastFind fn files with
      | some g => some g
      | none => alookup m fn := by
  induction files generalizing m c with
  | nil => simp [lastFind]
  | cons f rest ih =>
    simp only [List.foldl_cons, ih, lastFind]
    cases hlast : lastFind fn rest with
    | some g => simp
    | none =>
      by_cases hf : f.filename = fn
      · subst hf
        simp [alookup_ainsert_self]
      · simp [hf, alookup_ainsert_ne _ _ _ _ (fun he => hf he.symm)]

/-- Claim C4 (amended): an authenticated `Index` replaces the peer's
files dict by the last-write-wins map of the supplied list, but the
returned `files_indexed` counts every element of the list, duplicates
included, not the size of the resulting map. -/
theorem C4_index_amended (now : Nat) (st : ServerState) (token : String)
    (files : List FileMeta) (pd : PeerData)
    (hp : alookup st.peers token = some pd) (hon : pd.is_online = true) :
    (Index now st token files).2.success = true ∧
    (Index now st token files).2.files_indexed = files.length ∧
    ∃ pd', alookup (Index now st token files).1.peers token = some pd' ∧
      ∀ fn, alookup pd'.files fn = lastFind fn files := by
  simp only [Index, validate_token, hp, hon, if_true]
  refine ⟨by trivial, by simpa using index_fold_count files [] 0, ?_⟩
  refine ⟨_, alookup_ainsert_self _ _ _, ?_⟩
  intro fn
  have h := index_fold_lookup files [] 0 fn
  simp only [alookup_nil] at h
  rw [h]
  cases lastFind fn files <;> simp

/-- Two publish entries sharing the filename `a`; the second one wins. -/
def fmA : FileMeta :=
  { filename := "a", file_path := "a", file_size := 1, file_hash := "h1",
    last_modified := 0, mime_type := "text/plain", tags := [] }

/-- Two publish entries sharing the filename `a`; the second one wins. -/
def fmB : FileMeta :=
  { filename := "a", file_path := "a", file_size := 2, file_hash := "h2",
    last_modified := 1, mime_type := "text/plain", tags := [] }

/-- Witness for C4 (amended): publishing the duplicate batch on the
concrete registry yields `files_indexed = 2` and a one-entry map. -/
theorem C4_index_witness :
    (Index 3 stW "t1" [fmA, fmB]).2.success = true ∧
    (Index 3 stW "t1" [fmA, fmB]).2.files_indexed = 2 :=
  have h := C4_index_amended 3 stW "t1" [fmA, fmB] pdW (by decide) (by decide)
  ⟨h.1, h.2.1⟩

/-- Counterexample for C4 as stated: a batch of two entries with the
same filename reports `files_indexed = 2` although only one distinct
filename — one map entry — results. -/
theorem C4_index_counterexample :
    (Index 3 stW "t1" [fmA, fmB]).2.files_indexed = 2 ∧
    (alookup (Index 3 stW "t1" [fmA, fmB]).1.peers "t1").map
      (fun pd => pd.files.length) = some 1 ∧
    (alookup (Index 3 stW "t1" [fmA, fmB]).1.peers "t1").map
      (fun pd => alookup pd.files "a") = some (some fmB) := by
  refine ⟨by decide, by decide, by decide⟩

/-! ### Empty `Search` (claim C5) -/

/-- Claim C5: a `Search` whose name and pattern are both empty returns
no results, whatever the registry holds. -/
theorem C5_empty_search (now : Nat) (st : ServerState) (req : SearchRequest)
    (hname : req.filename = "") (hpat : req.file_pattern = "") :
    (Search now st req).2.results = [] := by
  unfold Search
  cases hv : validate_token now st req.token with
  | mk op st' =>
    cases op with
    | none => rfl
    | some p =>
      have hm : ∀ x : String,
          searchMatch (strLower req.filename)
            (if !(req.file_pattern == "") then strLower req.file_pattern else "") x
            = false := by
        intro x
        rw [hname, hpat]
        rfl
      simp only [hm]
      simp [List.filter_eq_nil_iff]

/-- The all-empty search request used by the C5 witness. -/
def reqEmptySearch : SearchRequest :=
  { token := "t1", peer_id := "p1", filename := "", file_pattern := "" }

/-- Witness for C5 on the concrete registry. -/
theorem C5_empty_search_witness :
    (Search 4 stW reqEmptySearch).2.results = [] :=
  C5_empty_search 4 stW reqEmptySearch rfl rfl

/-! ### Logout and reconnection (claim C8) -/

/-- Every successful `Login` leaves the username index pointing at the
returned token and a stored record carrying the request's username and
host, online. -/
theorem login_success_post (cfg : SecurityConfig) (now : Nat) (st : ServerState)
    (req : LoginRequest)
    (h : (Login cfg now st req).2.success = true) :
    alookup (Login cfg now st req).1.username_index req.username =
      some ((Login cfg now st req).2.token) ∧
    ∃ pd, alookup (Login cfg now st req).1.peers ((Login cfg now st req).2.token)
        = some pd ∧
      pd.username = req.username ∧ pd.url = req.peer_url ∧ pd.is_online = true := by
  cases hu : alookup st.username_index req.username with
  | none =>
    simp only [Login, hu, createNewPeer]
    exact ⟨alookup_ainsert_self _ _ _, _, alookup_ainsert_self _ _ _, rfl, rfl, rfl⟩
  | some t =>
    cases hp : alookup st.peers t with
    | none =>
      simp only [Login, hu, hp] at h
      exact absurd h (by simp)
    | some peer =>
      by_cases hb : (peer.username == req.username && peer.url == req.peer_url) = true
      · have hn : peer.username = req.username := by
          have hh := hb
          simp only [Bool.and_eq_true, beq_iff_eq] at hh
          exact hh.1
        have hl : peer.url = req.peer_url := by
          have hh := hb
          simp only [Bool.and_eq_true, beq_iff_eq] at hh
          exact hh.2
        simp only [Login, hu, hp, hb, if_true]
        exact ⟨by trivial, _, alookup_ainsert_self _ _ _, hn, hl, rfl⟩
      · have hb' : (peer.username == req.username && peer.url == req.peer_url) = false := by
          simpa using hb
        by_cases hr : peer.login_attempts + 1 > cfg.max_login_attempts
        · exfalso
          simp only [Login, hu, hp, hb', Bool.false_eq_true, if_false] at h
          rw [if_pos (by simpa using hr)] at h
          simp at h
        · simp only [Login, hu, hp, hb', Bool.false_eq_true, if_false]
          rw [if_neg (by simpa using hr)]
          simp only [createNewPeer]
          exact ⟨alookup_ainsert_self _ _ _, _, alookup_ainsert_self _ _ _, rfl, rfl, rfl⟩

/-- What `Logout` does to a stored online record: mark it offline with
a refreshed `last_seen`, touching nothing else. -/
theorem logout_post (now : Nat) (st : ServerState) (token : String) (pd : PeerData)
    (hp : alookup st.peers token = some pd) (hon : pd.is_online = true) :
    (Logout now st token).2.success = true ∧
    alookup (Logout now st token).1.peers token =
      some { pd with last_seen := now, is_online := false } ∧
    (Logout now st token).1.username_index = st.username_index ∧
    (Logout now st token).1.peer_index = st.peer_index ∧
    (Logout now st token).1.token_counter = st.token_counter := by
  simp only [Logout, validate_token, hp, hon, if_true]
  exact ⟨by trivial, alookup_ainsert_self _ _ _, by trivial, by trivial, by trivial⟩

/-- Claim C8: a successful `Login` (token `T`), then `Logout T`, then a
`Login` with the same username and host returns the same token `T`;
the `Logout` in between leaves the record stored, merely offline. -/
theorem C8_logout_relogin_same_token (cfg : SecurityConfig) (n1 n2 n3 : Nat)
    (st : ServerState) (req req2 : LoginRequest)
    (h : (Login cfg n1 st req).2.success = true)
    (hu2 : req2.username = req.username)
    (hh2 : req2.peer_url = req.peer_url) :
    (Logout n2 (Login cfg n1 st req).1 ((Login cfg n1 st req).2.token)).2.success
      = true ∧
    (∃ pd, alookup
        (Logout n2 (Login cfg n1 st req).1 ((Login cfg n1 st req).2.token)).1.peers
        ((Login cfg n1 st req).2.token) = some pd ∧
      pd.is_online = false ∧ pd.username = req.username) ∧
    (Login cfg n3
      (Logout n2 (Login cfg n1 st req).1 ((Login cfg n1 st req).2.token)).1
      req2).2.success = true ∧
    (Login cfg n3
      (Logout n2 (Login cfg n1 st req).1 ((Login cfg n1 st req).2.token)).1
      req2).2.token = (Login cfg n1 st req).2.token := by
  obtain ⟨hui, pd, hpd, hus, hurl, hon⟩ := login_success_post cfg n1 st req h
  have hlog := logout_post n2 (Login cfg n1 st req).1
    ((Login cfg n1 st req).2.token) pd hpd hon
  obtain ⟨hls, hlpd, hlui, hlpi, hltc⟩ := hlog
  have hu' : alookup
      (Logout n2 (Login cfg n1 st req).1 ((Login cfg n1 st req).2.token)).1.username_index
      req2.username = some ((Login cfg n1 st req).2.token) := by
    rw [hlui, hu2]
    exact hui
  have h3 := relogin_spec cfg n3
    (Logout n2 (Login cfg n1 st req).1 ((Login cfg n1 st req).2.token)).1 req2
    ((Login cfg n1 st req).2.token)
    { pd with last_seen := n2, is_online := false }
    hu' hlpd (hus.trans hu2.symm) (hurl.trans hh2.symm)
  exact ⟨hls, ⟨_, hlpd, rfl, hus⟩, h3.1, h3.2.1⟩

/-- Witness for C8: the concrete sequence from the empty registry
returns the token minted by the first login. -/
theorem C8_logout_relogin_witness :
    (Login defaultSecurityConfig 2
      (Logout 1 (Login defaultSecurityConfig 0 initialState reqA).1
        ((Login defaultSecurityConfig 0 initialState reqA).2.token)).1
      reqA).2.token = (Login defaultSecurityConfig 0 initialState reqA).2.token :=
  (C8_logout_relogin_same_token defaultSecurityConfig 0 1 2 initialState reqA reqA
    (by decide) rfl rfl).2.2.2

/-! ### `Search` result characterization (claim C9) -/

theorem mem_ite_nil {α : Type} {c : Prop} [Decidable c] {l : List α} {a : α} :
    (a ∈ if c then ([] : List α) else l) ↔ ¬c ∧ a ∈ l := by
  by_cases h : c <;> simp [h]

/-- Membership in the result list built by the `Search` scan. -/
theorem search_results_mem (peersList : List (String × PeerData))
    (rtok term pat : String) (loc : FileLocation) :
    (loc ∈ peersList.flatMap (fun tp =>
      if !tp.2.is_online || tp.1 == rtok then []
      else
        (tp.2.files.filter (fun ffd => searchMatch term pat ffd.1)).map
          (fun ffd => mkFileLocation tp.2 ffd.1 ffd.2))) ↔
    ∃ tok p fn fd, (tok, p) ∈ peersList ∧ p.is_online = true ∧ tok ≠ rtok ∧
      (fn, fd) ∈ p.files ∧ searchMatch term pat fn = true ∧
      loc = mkFileLocation p fn fd := by
  rw [List.mem_flatMap]
  constructor
  · rintro ⟨tp, htp, hloc⟩
    rw [mem_ite_nil] at hloc
    obtain ⟨hc, hloc⟩ := hloc
    simp only [Bool.or_eq_true, Bool.not_eq_true', beq_iff_eq, not_or,
      Bool.not_eq_false] at hc
    rw [List.mem_map] at hloc
    obtain ⟨ffd, hffd, hmk⟩ := hloc
    rw [List.mem_filter] at hffd
    exact ⟨tp.1, tp.2, ffd.1, ffd.2, by simpa using htp, hc.1, hc.2,
      by simpa using hffd.1, hffd.2, hmk.symm⟩
  · rintro ⟨tok, p, fn, fd, hmem, honl, hne, hfmem, hmatch, rfl⟩
    refine ⟨(tok, p), hmem, ?_⟩
    rw [mem_ite_nil]
    refine ⟨by simp [honl, hne], ?_⟩
    rw [List.mem_map]
    exact ⟨(fn, fd), List.mem_filter.mpr ⟨hfmem, hmatch⟩, rfl⟩

/-- Claim C9: an authenticated `Search` succeeds and emits exactly one
result for each file of each online peer other than the caller whose
lowercased filename contains the non-empty lowercased name or the
non-empty lowercased pattern; every result is flagged available, shows
an online peer snapshot, and carries a download URL of the form
`http://` host `:` port `/download/` filename built from that peer. -/
theorem C9_search_results_spec (now : Nat) (st : ServerState) (req : SearchRequest)
    (pd : PeerData)
    (hp : alookup st.peers req.token = some pd) (hon : pd.is_online = true) :
    (Search now st req).2.success = true ∧
    (∀ loc, loc ∈ (Search now st req).2.results ↔
      ∃ tok p fn fd, (tok, p) ∈ (Search now st req).1.peers ∧
        p.is_online = true ∧ tok ≠ req.token ∧ (fn, fd) ∈ p.files ∧
        searchMatch (strLower req.filename)
          (if !(req.file_pattern == "") then strLower req.file_pattern else "") fn
          = true ∧
        loc = mkFileLocation p fn fd) ∧
    (∀ loc ∈ (Search now st req).2.results,
      loc.is_available = true ∧ loc.peer_info.is_online = true ∧
      ∃ fn, loc.download_url =
        "http://" ++ loc.peer_info.url ++ ":" ++ toString loc.peer_info.port
          ++ "/download/" ++ fn) := by
  simp only [Search, validate_token, hp, hon, if_true]
  refine ⟨by trivial, ?_, ?_⟩
  · intro loc
    exact search_results_mem _ req.token _ _ loc
  · intro loc hloc
    obtain ⟨tok, p, fn, fd, hmem, honl, hne, hfmem, hmatch, rfl⟩ :=
      (search_results_mem _ req.token _ _ loc).mp hloc
    exact ⟨rfl, honl, fn, rfl⟩

/-- A second online peer publishing one file, for the C9 witness. -/
def fmHello : FileMeta :=
  { filename := "Hello.txt", file_path := "Hello.txt", file_size := 7,
    file_hash := "abc", last_modified := 0, mime_type := "text/plain", tags := [] }

/-- A second online peer publishing one file, for the C9 witness. -/
def pdX : PeerData :=
  { peer_id := "p2", username := "bob", url := "h2", port := 82, token := "t2",
    is_online := true, last_seen := 0, files := [("Hello.txt", fmHello)],
    login_attempts := 0, created_at := 0 }

/-- Two-peer registry for the C9 witness. -/
def stS : ServerState :=
  { peers := [("t1", pdW), ("t2", pdX)],
    peer_index := [("p1", "t1"), ("p2", "t2")],
    username_index := [("alice", "t1"), ("bob", "t2")], token_counter := 2 }

/-- The C9 witness request: peer `t1` searches for `hello`. -/
def reqS : SearchRequest :=
  { token := "t1", peer_id := "p1", filename := "hello", file_pattern := "" }

/-- Witness for C9 on the concrete two-peer registry. -/
theorem C9_search_results_witness : (Search 5 stS reqS).2.success = true :=
  (C9_search_results_spec 5 stS reqS pdW (by decide) (by decide)).1

/-! ### `Login` ignores the password (claim C10) -/

/-- Claim C10: two `Login` requests that differ only in the password
field produce, on any registry state, literally the same response and
the same successor state. -/
theorem C10_login_ignores_password (cfg : SecurityConfig) (now : Nat)
    (st : ServerState) (r1 r2 : LoginRequest)
    (hu : r1.username = r2.username) (hi : r1.peer_id = r2.peer_id)
    (hl : r1.peer_url = r2.peer_url) (hp : r1.port = r2.port) :
    Login cfg now st r1 = Login cfg now st r2 := by
  obtain ⟨u1, pw1, pid1, url1, port1⟩ := r1
  obtain ⟨u2, pw2, pid2, url2, port2⟩ := r2
  dsimp only at hu hi hl hp
  subst hu hi hl hp
  rfl

/-- Witness for C10: the same request with two different passwords on
the concrete registry. -/
theorem C10_login_ignores_password_witness :
    Login defaultSecurityConfig 3 stW
      { username := "alice", password := "secret-a", peer_id := "p1",
        peer_url := "h1", port := 1 } =
    Login defaultSecurityConfig 3 stW
      { username := "alice", password := "secret-b", peer_id := "p1",
        peer_url := "h1", port := 1 } :=
  C10_login_ignores_password defaultSecurityConfig 3 stW _ _ rfl rfl rfl rfl

/-! ### Peer server uploads (claim C6) -/

/-- Hardcoded upload size limit of `create_files` in `pserver.py`:
`max_size = 50 * 1024 * 1024`. -/
def uploadMaxSize : Nat := 50 * 1024 * 1024

/-- Default `max_file_size` from `get_files_config` in the server
`config.py` (104857600 bytes, 100 MB). -/
def defaultMaxFileSize : Nat := 104857600

/-- The status of the `HTTPException` raised inside the try-block of
`create_files` for a given upload size: 400 for an empty file, 413
above the hardcoded 50 MB limit, none when the size check passes. -/
def create_inner_status (size : Nat) : Option Nat :=
  if size = 0 then some 400
  else if size > uploadMaxSize then some 413
  else none

/-- The status the caller observes from `create_files`: the handler's
own `HTTPException`s are caught by the blanket `except Exception`
clause and re-raised as status 500; a passing upload returns 200. -/
def create_observed_status (size : Nat) : Nat :=
  match create_inner_status size with
  | some _ => 500
  | none => 200

/-- Claim C6 (amended): `create_files` raises 400 for an empty file and
413 above the hardcoded 50 MB limit — `max_file_size` from the
configuration plays no role — but its own blanket exception handler
converts both into an observed status 500; a non-empty upload of at
most 50 MB passes the size check. -/
theorem C6_upload_size_amended (size : Nat) :
    (size = 0 →
      create_inner_status size = some 400 ∧ create_observed_status size = 500) ∧
    (size > uploadMaxSize →
      create_inner_status size = some 413 ∧ create_observed_status size = 500) ∧
    (size ≠ 0 → size ≤ uploadMaxSize → create_observed_status size = 200) := by
  refine ⟨fun h0 => ?_, fun hgt => ?_, fun h0 hle => ?_⟩
  · subst h0
    exact ⟨rfl, rfl⟩
  · have h0 : size ≠ 0 := by
      intro h
      rw [h] at hgt
      exact absurd hgt (by decide)
    simp [create_inner_status, create_observed_status, h0, hgt]
  · simp [create_inner_status, create_observed_status, h0, Nat.not_lt.mpr hle]

/-- Witness for C6 (amended) at the empty-file boundary. -/
theorem C6_upload_size_witness :
    create_inner_status 0 = some 400 ∧ create_observed_status 0 = 500 :=
  (C6_upload_size_amended 0).1 rfl

/-- Counterexample for C6 as stated: an empty upload surfaces as 500
rather than 400, and an upload of exactly the configured
`max_file_size` (100 MB default) is rejected — with a 500, not a 413 —
because the handler's limit is hardcoded at 50 MB. -/
theorem C6_upload_size_counterexample :
    create_observed_status 0 = 500 ∧
    create_observed_status defaultMaxFileSize = 500 ∧
    create_observed_status uploadMaxSize = 200 ∧
    uploadMaxSize < defaultMaxFileSize := by
  refine ⟨by decide, by decide, by decide, by decide⟩

/-! ### Peer server downloads (claim C7) -/

/-- Split a character list at the separator, keeping empty pieces
(the semantics of Python's `str.split` with an explicit separator). -/
def splitChars (sep : Char) : List Char → List (List Char)
  | [] => [[]]
  | c :: rest =>
    if c = sep then [] :: splitChars sep rest
    else
      match splitChars sep rest with
      | [] => [[c]]
      | h :: t => (c :: h) :: t

/-- Split a filename on slashes, as the OS does when interpreting the
string joined onto a path. -/
def splitPath (s : String) : List String :=
  (splitChars (Char.ofNat 47) s.data).map String.mk

/-- OS-level resolution of a component list: empty and dot components
vanish and a dot-dot component cancels the preceding one. -/
def normalizePath (cs : List String) : List String :=
  cs.foldl (fun acc c =>
    if c = "" ∨ c = "." then acc
    else if c = ".." then acc.dropLast
    else acc ++ [c]) []

/-- Model of `FileManager.get_file_path`: join `shared_directory / filename` and
return the resolved path when it names an existing regular file, else
`None`.  The filesystem is abstracted to the list of resolved paths of
its regular files.  No containment check against the shared directory
is performed. -/
def get_file_path (shared : List String) (fs : List (List String)) (filename : String) :
    Option (List String) :=
  let p := normalizePath (shared ++ splitPath filename)
  if p ∈ fs then some p else none

/-- The `download_file` endpoint: 404 when `get_file_path` returns
`None`, otherwise the resolved file is served with status 200. -/
def download_file (shared : List String) (fs : List (List String)) (filename : String) :
    Nat × Option (List String) :=
  match get_file_path shared fs filename with
  | none => (404, none)
  | some p => (200, some p)

/-- Claim C7 (amended): the served path is the OS-resolved join of
`shared_root` and the filename with no containment check — whenever
that resolution names an existing regular file it is served with 200,
even if dot-dot components carried it outside `shared_root` — and any
filename whose resolved join does not name an existing regular file
yields 404. -/
theorem C7_download_amended (shared : List String) (fs : List (List String))
    (filename : String) :
    (normalizePath (shared ++ splitPath filename) ∈ fs →
      download_file shared fs filename =
        (200, some (normalizePath (shared ++ splitPath filename)))) ∧
    (normalizePath (shared ++ splitPath filename) ∉ fs →
      download_file shared fs filename = (404, none)) := by
  unfold download_file get_file_path
  constructor
  · intro hmem
    rw [if_pos hmem]
  · intro hmem
    rw [if_neg hmem]

/-- Witness for C7 (amended): a filename absent from the shared root
yields 404. -/
theorem C7_download_witness :
    download_file ["srv", "shared"] [["srv", "shared", "a.txt"]] "b.txt"
      = (404, none) :=
  (C7_download_amended ["srv", "shared"] [["srv", "shared", "a.txt"]] "b.txt").2
    (by decide)

/-- Counterexample for C7 as stated: the traversal filename
`../secret.txt` resolves outside the shared root yet is served with
status 200 instead of being rejected. -/
theorem C7_download_counterexample :
    download_file ["srv", "shared"] [["srv", "secret.txt"]] "../secret.txt"
      = (200, some ["srv", "secret.txt"]) ∧
    (["srv", "shared"].isPrefixOf ["srv", "secret.txt"]) = false := by
  refine ⟨by decide, by decide⟩

end P2P
